import Mathlib

/-!
Verification of the MidiMixer real-time streaming playback pipeline.

The definitions below are a shallow embedding of the TypeScript sources:
`PromptController` (the per-slot knob/MIDI component), `PromptDjMidi`
(the grid component owning the prompt map), the `main` bootstrap with
`buildInitialPrompts` and `GENRE_LIBRARY`, and `InfluenceMonitor`.
Components of the core pipeline that are referenced but whose source is
not part of the repository snapshot (`LiveMusicHelper`, `AudioAnalyser`,
`utils/throttle`, the ReconnectPolicy) are modelled from the written
specification; each such definition says so in its doc comment.

JavaScript `Map` objects are modelled as insertion-ordered association
lists, numbers as `ℚ` (weights, densities) or `ℤ`/`ℕ` (tempo, MIDI data),
and event-callback state updates as explicit state-passing functions.
-/

set_option autoImplicit false

namespace MidiMixer

/-- PlaybackState enum of the spec (§3) and of `types.ts`:
`stopped, loading, playing, paused`. -/
inductive PlaybackState where
  | stopped
  | loading
  | playing
  | paused
deriving DecidableEq, Repr, Inhabited

/-- The Prompt record: the fields carried by every `prompt-changed` event
(`PromptController.dispatchPromptChange`) and stored in the prompt map. -/
structure Prompt where
  promptId : String
  text : String
  weight : ℚ
  cc : ℕ
  color : String
  density : ℚ
  instruments : List String
  selectedInstrument : Option String
deriving DecidableEq, Repr, Inhabited

/-- `Map.get`: the value stored at key `k`, if any. -/
def mapGet (m : List (String × Prompt)) (k : String) : Option Prompt :=
  (m.find? (fun e => e.1 = k)).map (fun e => e.2)

/-- `Map.set`: replace in place when the key exists (JS `Map` keeps the
original insertion position), append otherwise. -/
def mapSet (m : List (String × Prompt)) (k : String) (v : Prompt) :
    List (String × Prompt) :=
  match m with
  | [] => [(k, v)]
  | e :: rest => if e.1 = k then (k, v) :: rest else e :: mapSet rest k v

/-- `Object.assign(prompt, detail)` where `detail` carries every `Prompt`
field (as every `prompt-changed` event does): every field of `prompt` is
overwritten with the corresponding field of `detail`. -/
def assignAll (prompt detail : Prompt) : Prompt :=
  { promptId := detail.promptId
    text := detail.text
    weight := detail.weight
    cc := detail.cc
    color := detail.color
    density := detail.density
    instruments := detail.instruments
    selectedInstrument := detail.selectedInstrument }

/-- `PromptDjMidi.handlePromptChanged` (part_001 lines 248-264): look up the
event's `promptId`; if absent, return unchanged; otherwise
`Object.assign(prompt, detail)` and store a copy of the merged record under
that key. -/
def handlePromptChanged (prompts : List (String × Prompt)) (detail : Prompt) :
    List (String × Prompt) :=
  match mapGet prompts detail.promptId with
  | none => prompts
  | some prompt => mapSet prompts detail.promptId (assignAll prompt detail)

/-- A `cc-message` event payload (`ControlChange` of `types.ts`, as consumed
in `PromptController.connectedCallback`). -/
structure ControlChange where
  channel : ℕ
  cc : ℕ
  value : ℕ
deriving DecidableEq, Repr

/-- The mutable fields of a `PromptController` element that the
`cc-message` listener touches. -/
structure PromptControllerState where
  cc : ℕ
  channel : ℕ
  learnMode : Bool
  weight : ℚ
  density : ℚ
deriving DecidableEq, Repr

/-- The `cc-message` listener registered in
`PromptController.connectedCallback` (part_000 lines 195-210): in learn
mode, bind the incoming controller and leave learn mode; otherwise, if the
controller number matches the bound `cc`, set
`weight = (value / 127) * 2`. -/
def onCcMessage (s : PromptControllerState) (msg : ControlChange) :
    PromptControllerState :=
  if s.learnMode then
    { s with cc := msg.cc, channel := msg.channel, learnMode := false }
  else if msg.cc = s.cc then
    { s with weight := (msg.value : ℚ) / 127 * 2 }
  else
    s

/-- `PromptController.handleDensityChange` (part_000 lines 292-296): store
`parseFloat(input.value)` with no clamping and dispatch the prompt. -/
def handleDensityChange (s : PromptControllerState) (v : ℚ) :
    PromptControllerState :=
  { s with density := v }

/-- The fields of a `PromptDjMidi` element relevant to the claims. -/
structure PromptDjMidiState where
  prompts : List (String × Prompt)
  tempoBpm : ℤ
  filteredPrompts : List String
  playbackState : PlaybackState
deriving DecidableEq, Repr

/-- `PromptDjMidi.handleTempoInput` (part_001 lines 266-270): store
`parseInt(input.value)` with no clamping and dispatch `tempo-changed`
with the same value. -/
def handleTempoInput (s : PromptDjMidiState) (v : ℤ) : PromptDjMidiState × ℤ :=
  ({ s with tempoBpm := v }, v)

/-- `PromptDjMidi.addFilteredPrompt` (part_001 lines 319-321):
`new Set([...this.filteredPrompts, prompt])` — adds the text unless already
present, keeping first-occurrence order. -/
def addFilteredPrompt (fp : List String) (p : String) : List String :=
  if p ∈ fp then fp else fp ++ [p]

/-- A `LiveMusicFilteredPrompt` as consumed by the `filtered-prompt`
listener in `main`. -/
structure FilteredPrompt where
  text : String
  filteredReason : String
deriving DecidableEq, Repr

/-- App-level state seen by the listeners wired up in `main`. -/
structure AppState where
  pdj : PromptDjMidiState
  toasts : List String
deriving DecidableEq, Repr

/-- The `filtered-prompt` listener in `main` (part_002 lines 54-59): show a
toast with the notice's reason and record the notice's text via
`addFilteredPrompt`; nothing else is touched. -/
def onFilteredPrompt (app : AppState) (fp : FilteredPrompt) : AppState :=
  { app with
      toasts := app.toasts ++ [fp.filteredReason]
      pdj := { app.pdj with
                 filteredPrompts :=
                   addFilteredPrompt app.pdj.filteredPrompts fp.text } }

/-- A concrete `PromptDjMidi` state: empty map, default tempo 120,
state `stopped` — the component's initial values. -/
def sampleDj : PromptDjMidiState :=
  { prompts := [], tempoBpm := 120, filteredPrompts := [],
    playbackState := PlaybackState.stopped }

/-- A genre entry of `GENRE_LIBRARY` (part_002 lines 104-143). -/
structure Genre where
  color : String
  text : String
  instruments : List String
deriving DecidableEq, Repr, Inhabited

/-- The static genre catalog `GENRE_LIBRARY` (part_002 lines 104-143). -/
def GENRE_LIBRARY : List Genre := [
  ⟨"#9900ff", "Bossa Nova", ["Acoustic Guitar", "Nylon Strings", "Piano", "Flute"]⟩,
  ⟨"#5200ff", "Chillwave", ["Synth Pad", "Soft Lead", "Drum Machine"]⟩,
  ⟨"#ff25f6", "Drum and Bass", ["Sub Bass", "Reese Bass", "Sharp Synth"]⟩,
  ⟨"#2af6de", "Post Punk", ["Chorus Guitar", "Driving Bass", "Lo-fi Drums"]⟩,
  ⟨"#ffdd28", "Shoegaze", ["Distorted Guitar", "Reverb Pad", "Soft Vocals"]⟩,
  ⟨"#2af6de", "Funk", ["Slap Bass", "Wah Guitar", "Clavinet", "Brass"]⟩,
  ⟨"#9900ff", "Chiptune", ["Square Wave", "Pulse Wave", "Noise Percursion"]⟩,
  ⟨"#3dffab", "Lush Strings", ["Cello", "Violin Section", "Harp"]⟩,
  ⟨"#d8ff3e", "Sparkling Arpeggios", ["Plucked Synth", "Glockenspiel", "Celesta"]⟩,
  ⟨"#d9b2ff", "Staccato Rhythms", ["Marimba", "Pizzicato Strings", "Woodblock"]⟩,
  ⟨"#3dffab", "Punchy Kick", ["808 Kick", "909 Kick", "Analog Kick"]⟩,
  ⟨"#ffdd28", "Dubstep", ["Wobble Bass", "Gritty Lead", "Heavy Snares"]⟩,
  ⟨"#ff25f6", "K Pop", ["Pop Synth", "Bright Piano", "Trap Beats"]⟩,
  ⟨"#d8ff3e", "Neo Soul", ["Rhodes Piano", "Warm Bass", "Clean Guitar"]⟩,
  ⟨"#5200ff", "Trip Hop", ["Jazz Trumpet", "Vinyl Scratches", "Upright Bass"]⟩,
  ⟨"#d9b2ff", "Thrash", ["Heavy Metal Guitar", "Double Kick Drums", "Raw Bass"]⟩,
  ⟨"#ff4b2b", "Techno", ["FM Lead", "Industrial Percussion", "Acid Synth"]⟩,
  ⟨"#00d2ff", "Deep House", ["Soulful Vocal", "Muted Organ", "Classic 909"]⟩,
  ⟨"#ff0099", "Synthwave", ["DX7 Bell", "Analog Strings", "Retro Drums"]⟩,
  ⟨"#8e44ad", "Lo-Fi Hip Hop", ["Muted Piano", "Warm Pad", "Lazy Drums"]⟩,
  ⟨"#2ecc71", "Eurodance", ["Trance Lead", "Housetrance Piano", "Snare Roll"]⟩,
  ⟨"#34495e", "Grime", ["Squelchy Bass", "Dirty Lead", "Aggressive Percussion"]⟩,
  ⟨"#f1c40f", "Acid Jazz", ["Hammond Organ", "Tenor Sax", "Walking Bass"]⟩,
  ⟨"#ff79c6", "Vaporwave", ["Saxophone", "Pitch-shifted Pad", "Electric Piano"]⟩,
  ⟨"#7f8c8d", "Industrial", ["Distorted Percussion", "Metallic Pad", "Noisy Lead"]⟩,
  ⟨"#e67e22", "Reggaeton", ["Dembow Rhythm", "Sub Kick", "Brass Hits"]⟩,
  ⟨"#95a5a6", "Ska", ["Upstroke Guitar", "Walking Bassline", "Trombone"]⟩,
  ⟨"#ecf0f1", "Gospel", ["Grand Piano", "B3 Organ", "Choral Vocals"]⟩,
  ⟨"#d35400", "Bluegrass", ["Banjo", "Mandolin", "Fiddle", "Upright Bass"]⟩,
  ⟨"#c0392b", "Hardstyle", ["Distorted Kick", "Screech Lead", "Rave Pad"]⟩,
  ⟨"#1abc9c", "Afrobeat", ["Polyrythmic Drums", "Funk Guitar", "Baritone Sax"]⟩,
  ⟨"#3498db", "Ambient", ["Shimmer Pad", "Ethereal Textures", "Soft Piano"]⟩,
  ⟨"#9b59b6", "Garage", ["Skippy Beats", "Warped Vocal", "Organ Bass"]⟩,
  ⟨"#f39c12", "Disco", ["String Section", "Octave Bass", "Cowbell"]⟩,
  ⟨"#e74c3c", "Heavy Metal", ["Overdriven Guitar", "Power Bass", "Aggressive Drums"]⟩,
  ⟨"#bdc3c7", "Minimal", ["Clockwork Percussion", "Sine Bass", "Clicky Snares"]⟩,
  ⟨"#2c3e50", "Trap", ["Rapid Hats", "Boomy 808", "Dark Pluck"]⟩,
  ⟨"#f1c40f", "Ragtime", ["Honky Tonk Piano", "Tack Piano", "Banjo"]⟩]

/-- `buildInitialPrompts` (part_002 lines 78-102). `startOn` is the set of
library indices of the three genre objects picked by the random
shuffle-and-`slice(0, 3)`; JS `includes` compares object identity, which
index membership models exactly. For slot `i` the genre is
`GENRE_LIBRARY[i % GENRE_LIBRARY.length]`, the key is `prompt-i`, the
weight is 1 when the genre object was picked and 0 otherwise, `cc` is `i`,
`density` is 0.5 and `selectedInstrument` is the genre's first instrument
(absent when the list is empty). -/
def buildInitialPrompts (startOn : List ℕ) : List (String × Prompt) :=
  (List.range 16).map (fun i =>
    let genre := GENRE_LIBRARY.getD (i % GENRE_LIBRARY.length) default
    ("prompt-" ++ toString i,
      { promptId := "prompt-" ++ toString i
        text := genre.text
        weight := if i ∈ startOn then 1 else 0
        cc := i
        color := genre.color
        density := 1/2
        instruments := genre.instruments
        selectedInstrument := genre.instruments.head? }))

/-- Modelled from the spec: the rate limiter between
`PlaybackOrchestrator.setWeightedPrompts` and `StreamSession` — the
`utils/throttle` module and `LiveMusicHelper` are not part of the
repository snapshot. Spec §4.5 and §9: "an explicit rate limiter holding
only the most recent pending value and a scheduled flush", with a minimum
interval between forwarded updates, latest value winning, and the last
value set before the window closes always eventually sent. Time is
discrete: one step per time unit; `cooldown` is the number of steps until
the next forward is allowed; `pending` is the most recent value set since
the last forward. -/
structure Limiter (V : Type) where
  cooldown : ℕ
  pending : Option V
deriving DecidableEq, Repr

/-- One time step of the rate limiter. The step input is `some v` when the
UI sets value `v` during this step, `none` otherwise; the step output is
`some v` when the limiter forwards `v` to the StreamSession during this
step. A newly set value supersedes the pending one; a forward starts a
cooldown of `interval - 1` further steps, so two forwards are at least
`interval` steps apart. -/
def limiterStep {V : Type} (interval : ℕ) (s : Limiter V) (e : Option V) :
    Limiter V × Option V :=
  let pend := match e with | some v => some v | none => s.pending
  if s.cooldown = 0 then
    match pend with
    | some v => (⟨interval - 1, none⟩, some v)
    | none => (⟨0, none⟩, none)
  else
    (⟨s.cooldown - 1, pend⟩, none)

/-- The output trace of the rate limiter over an input trace. -/
def limiterRun {V : Type} (interval : ℕ) (s : Limiter V) :
    List (Option V) → List (Option V)
  | [] => []
  | e :: es => (limiterStep interval s e).2 :: limiterRun interval (limiterStep interval s e).1 es

/-- The limiter state after consuming an input trace. -/
def limiterFinal {V : Type} (interval : ℕ) (s : Limiter V) :
    List (Option V) → Limiter V
  | [] => s
  | e :: es => limiterFinal interval (limiterStep interval s e).1 es

/-- The last `some` entry of a trace (the most recent set value, or the
most recent forwarded value, of a prefix). -/
def lastSome {V : Type} : List (Option V) → Option V
  | [] => none
  | e :: es => match lastSome es with
    | some v => some v
    | none => e

/-- The idle limiter: no cooldown running, nothing pending. -/
def limiterIdle {V : Type} : Limiter V := ⟨0, none⟩

/-- Modelled from the spec: the PlaybackScheduler's underrun policy
(§4.3) — the scheduling half of `LiveMusicHelper` is not part of the
repository snapshot. State: the published PlaybackState, the number of
buffered chunks, and whether the scheduler is currently starving. -/
structure SchedState where
  playback : PlaybackState
  buffer : ℕ
  starving : Bool
deriving DecidableEq, Repr

/-- Events seen by the scheduler: an audio-clock tick that consumes one
chunk of output, or the arrival of a new chunk from the stream. -/
inductive SchedEvent where
  | tick
  | chunk
deriving DecidableEq, Repr

/-- What a clock tick puts on the output timeline. -/
inductive SchedOut where
  | audio
  | silence
deriving DecidableEq, Repr

/-- Modelled from the spec (§4.3): one scheduler step. A tick while
`playing` with an empty buffer holds the state at `playing`, outputs
silence, and — only when the starvation episode begins — emits one
`UnderrunDiagnostic` (the `Bool` component); a tick with a non-empty
buffer consumes one chunk, outputs audio and ends any starvation episode;
a chunk arrival only grows the buffer. -/
def schedStep (s : SchedState) : SchedEvent → SchedState × Option SchedOut × Bool
  | SchedEvent.tick =>
    if s.playback = PlaybackState.playing then
      if s.buffer = 0 then
        ({ s with starving := true }, some SchedOut.silence, !s.starving)
      else
        ({ s with buffer := s.buffer - 1, starving := false }, some SchedOut.audio, false)
    else
      (s, none, false)
  | SchedEvent.chunk => ({ s with buffer := s.buffer + 1 }, none, false)

/-- The scheduler state after an event trace. -/
def schedFinal (s : SchedState) : List SchedEvent → SchedState
  | [] => s
  | e :: es => schedFinal (schedStep s e).1 es

/-- Total number of `UnderrunDiagnostic` events emitted over a trace. -/
def schedDiags (s : SchedState) : List SchedEvent → ℕ
  | [] => 0
  | e :: es => (if (schedStep s e).2.2 then 1 else 0) + schedDiags (schedStep s e).1 es

/-- Number of starvation episodes begun over a trace: steps on which the
`starving` flag flips from `false` to `true`. -/
def schedEpisodes (s : SchedState) : List SchedEvent → ℕ
  | [] => 0
  | e :: es =>
    (if (schedStep s e).1.starving ∧ ¬s.starving then 1 else 0) +
      schedEpisodes (schedStep s e).1 es

/-- Modelled from the spec: ReconnectPolicy (§4.2) — not part of the
repository snapshot. The backoff delay before reconnect attempt
`attempt`, ignoring jitter: `base * 2 ^ attempt`, capped at `cap`. -/
def reconnectDelay (base cap attempt : ℕ) : ℕ :=
  min (base * 2 ^ attempt) cap

/-- Modelled from the spec: the delay including a jitter term, which the
policy draws from `[0, delay / 4]` (jitter in `[0, delay * 0.25]`). -/
def reconnectDelayJittered (base cap attempt jitter : ℕ) : ℕ :=
  reconnectDelay base cap attempt + jitter

/-- Modelled from the spec: `shouldRetry` is `false` once the attempt
count exceeds the configured maximum. -/
def shouldRetry (maxAttempts attempt : ℕ) : Bool :=
  decide (attempt ≤ maxAttempts)

/-- Orchestrator state for the error-recovery path: published
PlaybackState, completed reconnect attempts, and fatal `error` events
emitted so far. -/
structure OrchState where
  playback : PlaybackState
  attempt : ℕ
  fatalErrors : ℕ
deriving DecidableEq, Repr

/-- Modelled from the spec (§4.5, §7): on a StreamSession `error`, consult
ReconnectPolicy; if it allows a retry, reconnect (state `loading`, one
more attempt); otherwise transition to `stopped` and emit one fatal
`error`. Once `stopped` the session is torn down, so further errors from
it are not handled. -/
def onStreamError (maxAttempts : ℕ) (s : OrchState) : OrchState :=
  if s.playback = PlaybackState.stopped then s
  else if shouldRetry maxAttempts s.attempt then
    { s with playback := PlaybackState.loading, attempt := s.attempt + 1 }
  else
    { s with playback := PlaybackState.stopped, fatalErrors := s.fatalErrors + 1 }

/-- `n` consecutive StreamSession `error` events. -/
def runErrors (maxAttempts : ℕ) (s : OrchState) : ℕ → OrchState
  | 0 => s
  | n + 1 => runErrors maxAttempts (onStreamError maxAttempts s) n

/-- Modelled from the spec: the logical prompt update
`LiveMusicHelper.setWeightedPrompts` sends to the remote service —
`LiveMusicHelper` is not part of the repository snapshot. Spec §3: "every
key present in the set has a corresponding entry sent to the remote
service exactly once per logical update; entries with weight 0 are still
transmitted", and §9: "the source always includes them". The update
carries one `(key, weight)` wire entry per map entry, in map order;
`main` (part_002 lines 32-36) feeds it the full current prompt map. -/
def buildPromptUpdate (m : List (String × Prompt)) : List (String × ℚ) :=
  m.map (fun e => (e.1, e.2.weight))

/-- Modelled from the spec: `AudioAnalyser.start` — `AudioAnalyser` is not
part of the repository snapshot; §4.4 makes `start` idempotent, so it
sets the running flag. -/
def analyserStart (running : Bool) : Bool := true

/-- Modelled from the spec: `AudioAnalyser.stop`, idempotent: clears the
running flag. -/
def analyserStop (running : Bool) : Bool := false

/-- The `playback-state-changed` listener in `main` (part_002 lines
47-52): `playbackState === 'playing' ? audioAnalyser.start() :
audioAnalyser.stop()` — `start()` on every event whose new state is
`playing`, `stop()` on every other event. -/
def onPlaybackStateChanged (running : Bool) (ps : PlaybackState) : Bool :=
  if ps = PlaybackState.playing then analyserStart running
  else analyserStop running

/-- The analyzer's running flag after a trace of `playback-state-changed`
events. -/
def runAnalyser (running : Bool) : List PlaybackState → Bool
  | [] => running
  | e :: es => runAnalyser (onPlaybackStateChanged running e) es

/-- Number of `stop()` invocations the listener performs over a trace. -/
def stopCalls (events : List PlaybackState) : ℕ :=
  events.countP (fun ps => decide (ps ≠ PlaybackState.playing))

/-- Number of `start()` invocations the listener performs over a trace. -/
def startCalls (events : List PlaybackState) : ℕ :=
  events.countP (fun ps => decide (ps = PlaybackState.playing))

/-- Number of transitions out of `playing` along a trace of states whose
first element is the state preceding the first event. -/
def transitionsOutOfPlaying : PlaybackState → List PlaybackState → ℕ
  | _, [] => 0
  | prev, e :: es =>
    (if prev = PlaybackState.playing ∧ e ≠ PlaybackState.playing then 1 else 0) +
      transitionsOutOfPlaying e es

/-- The rate-limiter contract of C1 for an input trace `es` (one slot per
time step, `some v` = the UI set value `v` then), starting idle:
(i) latest-wins — every forwarded value is the last value set up to that
step, so no earlier value is ever sent after a later one;
(ii) forwards are at least `interval` steps apart;
(iii) when every step carries an edit (edits faster than the limit),
every full window of `interval` steps sees exactly one forward;
(iv) after the edits stop, within one further window the last value set
is the last value forwarded. -/
def RateLimiterSpec (V : Type) (interval : ℕ) (es : List (Option V)) : Prop :=
  (∀ j v, (limiterRun interval limiterIdle es).getD j none = some v →
      lastSome (es.take (j + 1)) = some v) ∧
  (∀ i j, i < j →
      ((limiterRun interval limiterIdle es).getD i none).isSome →
      ((limiterRun interval limiterIdle es).getD j none).isSome →
      i + interval ≤ j) ∧
  ((∀ e ∈ es, e ≠ none) → ∀ k, (k + 1) * interval ≤ es.length →
      ∃! j, k * interval ≤ j ∧ j < (k + 1) * interval ∧
        ((limiterRun interval limiterIdle es).getD j none).isSome) ∧
  lastSome (limiterRun interval limiterIdle (es ++ List.replicate interval none)) =
    lastSome es

/-- The underrun contract of C2 for a scheduler started in state `s`:
after every prefix of the trace the published PlaybackState equals the
initial one (in particular an underrun never stops playback); exactly one
`UnderrunDiagnostic` is emitted per starvation episode; a starved tick
while `playing` outputs silence and keeps playing; a tick with buffered
chunks outputs audio and ends any starvation episode. -/
def UnderrunSpec (s : SchedState) (events : List SchedEvent) : Prop :=
  (∀ n, (schedFinal s (events.take n)).playback = PlaybackState.playing) ∧
  schedDiags s events = schedEpisodes s events ∧
  (∀ t : SchedState, t.playback = PlaybackState.playing → t.buffer = 0 →
      (schedStep t SchedEvent.tick).1.playback = PlaybackState.playing ∧
      (schedStep t SchedEvent.tick).2.1 = some SchedOut.silence) ∧
  (∀ t : SchedState, t.playback = PlaybackState.playing → 0 < t.buffer →
      (schedStep t SchedEvent.tick).2.1 = some SchedOut.audio ∧
      (schedStep t SchedEvent.tick).1.starving = false)

/-- The ReconnectPolicy contract of C3 for configuration
`(base, cap, maxAttempts)`: the delay is `base * 2 ^ attempt` capped at
`cap`; adding any jitter drawn from `[0, delay / 4]` keeps the total in
`[delay, delay + delay / 4]`; ignoring jitter the delay is non-decreasing
in the attempt count; `shouldRetry` turns false exactly when the attempt
count exceeds the maximum; once the attempt count is exhausted the
orchestrator is `stopped` with exactly one fatal error emitted, and no
fatal error is emitted before exhaustion. -/
def ReconnectSpec (base cap maxAttempts : ℕ) : Prop :=
  (∀ a, reconnectDelay base cap a ≤ cap ∧
      (base * 2 ^ a ≤ cap → reconnectDelay base cap a = base * 2 ^ a) ∧
      (cap ≤ base * 2 ^ a → reconnectDelay base cap a = cap)) ∧
  (∀ a j, j ≤ reconnectDelay base cap a / 4 →
      reconnectDelay base cap a ≤ reconnectDelayJittered base cap a j ∧
      reconnectDelayJittered base cap a j ≤
        reconnectDelay base cap a + reconnectDelay base cap a / 4) ∧
  (∀ a b, a ≤ b → reconnectDelay base cap a ≤ reconnectDelay base cap b) ∧
  (∀ a, shouldRetry maxAttempts a = false ↔ maxAttempts < a) ∧
  (∀ n, maxAttempts + 2 ≤ n →
      runErrors maxAttempts ⟨PlaybackState.playing, 0, 0⟩ n =
        ⟨PlaybackState.stopped, maxAttempts + 1, 1⟩) ∧
  (∀ n, n ≤ maxAttempts + 1 →
      (runErrors maxAttempts ⟨PlaybackState.playing, 0, 0⟩ n).fatalErrors = 0)

/-- The prompt-update contract of C6 for a prompt map `m` with distinct
keys: the wire update has exactly one entry per key of the map, every
stored entry appears with its weight — weight 0 included — and the update
has one wire entry per map entry. -/
def UpdateSpec (m : List (String × Prompt)) : Prop :=
  (∀ k, k ∈ m.map Prod.fst →
      (buildPromptUpdate m).countP (fun e => decide (e.1 = k)) = 1) ∧
  (∀ k p, mapGet m k = some p → (k, p.weight) ∈ buildPromptUpdate m) ∧
  (buildPromptUpdate m).length = m.length

/-- The `buildInitialPrompts` contract of C10 for a valid random choice
`startOn` (three distinct library indices): 16 entries keyed
`prompt-0` … `prompt-15` in slot order; entry `i` carries `cc = i`,
density one half, the text/color/instruments of library genre `i`, and
weight 1 exactly when genre `i` was drawn, else 0; at most 3 entries have
weight 1; the library has 38 genres; and some valid draws switch no slot
on at all. -/
def InitialPromptsSpec (startOn : List ℕ) : Prop :=
  (buildInitialPrompts startOn).length = 16 ∧
  (buildInitialPrompts startOn).map Prod.fst =
    (List.range 16).map (fun i => "prompt-" ++ toString i) ∧
  (∀ i, i < 16 →
    ((buildInitialPrompts startOn).getD i default).2 =
      { promptId := "prompt-" ++ toString i
        text := (GENRE_LIBRARY.getD i default).text
        weight := if i ∈ startOn then 1 else 0
        cc := i
        color := (GENRE_LIBRARY.getD i default).color
        density := 1/2
        instruments := (GENRE_LIBRARY.getD i default).instruments
        selectedInstrument := (GENRE_LIBRARY.getD i default).instruments.head? }) ∧
  (∀ i, i < 16 →
    ((buildInitialPrompts startOn).getD i default).2.weight = 0 ∨
      ((buildInitialPrompts startOn).getD i default).2.weight = 1) ∧
  (buildInitialPrompts startOn).countP (fun e => decide (e.2.weight = 1)) ≤ 3 ∧
  GENRE_LIBRARY.length = 38 ∧
  (∃ s : List ℕ, s.Nodup ∧ s.length = 3 ∧ (∀ j ∈ s, j < GENRE_LIBRARY.length) ∧
    (buildInitialPrompts s).countP (fun e => decide (e.2.weight = 1)) = 0)

/-- A concrete `PromptController` state: slot bound to cc 5, learn mode
off. -/
def samplePc : PromptControllerState :=
  { cc := 5, channel := 0, learnMode := false, weight := 0, density := 1/2 }

/-- A concrete one-slot prompt record for witnesses. -/
def samplePrompt : Prompt :=
  { promptId := "prompt-0", text := "Bossa Nova", weight := 0, cc := 0,
    color := "#9900ff", density := 1/2,
    instruments := ["Acoustic Guitar"], selectedInstrument := some "Acoustic Guitar" }

/-- A concrete replacement record carrying the same `promptId`. -/
def samplePromptEdit : Prompt :=
  { promptId := "prompt-0", text := "Funk", weight := 2, cc := 7,
    color := "#2af6de", density := 1,
    instruments := ["Slap Bass"], selectedInstrument := some "Slap Bass" }

theorem mapGet_cons (e : String × Prompt) (m : List (String × Prompt)) (k : String) :
    mapGet (e :: m) k = if e.1 = k then some e.2 else mapGet m k := by
  by_cases h : e.1 = k <;> simp [mapGet, List.find?_cons, h]

theorem assignAll_eq (prompt detail : Prompt) : assignAll prompt detail = detail := rfl

theorem mapGet_mapSet_self (m : List (String × Prompt)) (k : String) (v : Prompt) :
    mapGet (mapSet m k v) k = some v := by
  induction m with
  | nil => simp [mapSet, mapGet, List.find?_cons]
  | cons e rest ih =>
    by_cases h : e.1 = k
    · simp [mapSet, h, mapGet_cons]
    · simpa [mapSet, h, mapGet_cons] using ih

theorem mapGet_mapSet_ne (m : List (String × Prompt)) (k k' : String) (v : Prompt)
    (h : k' ≠ k) : mapGet (mapSet m k v) k' = mapGet m k' := by
  have h' : ¬(k = k') := Ne.symm h
  induction m with
  | nil => simp [mapSet, mapGet_cons, h', mapGet]
  | cons e rest ih =>
    by_cases he : e.1 = k
    · simp [mapSet, he, mapGet_cons, h']
    · simp [mapSet, he, mapGet_cons, ih]

/-- C4: a `prompt-changed` event for an unknown `promptId` leaves the map
unchanged; for a known `promptId` it replaces that entry, as a whole
record, by the event's record and leaves every other entry unchanged; in
particular which keys are present is invariant under every edit. -/
theorem handlePromptChanged_replacement (prompts : List (String × Prompt))
    (detail : Prompt) :
    (mapGet prompts detail.promptId = none →
      handlePromptChanged prompts detail = prompts) ∧
    (∀ p, mapGet prompts detail.promptId = some p →
      mapGet (handlePromptChanged prompts detail) detail.promptId = some detail ∧
      ∀ k, k ≠ detail.promptId →
        mapGet (handlePromptChanged prompts detail) k = mapGet prompts k) ∧
    (∀ k, (mapGet (handlePromptChanged prompts detail) k).isSome =
      (mapGet prompts k).isSome) := by
  refine ⟨fun h => by simp [handlePromptChanged, h], fun p hp => ?_, fun k => ?_⟩
  · have hstep : handlePromptChanged prompts detail =
        mapSet prompts detail.promptId detail := by
      simp only [handlePromptChanged, hp, assignAll_eq]
    rw [hstep]
    exact ⟨mapGet_mapSet_self _ _ _, fun k hk => mapGet_mapSet_ne _ _ _ _ hk⟩
  · cases hp : mapGet prompts detail.promptId with
    | none => simp [handlePromptChanged, hp]
    | some p =>
      have hstep : handlePromptChanged prompts detail =
          mapSet prompts detail.promptId detail := by
        simp only [handlePromptChanged, hp, assignAll_eq]
      rw [hstep]
      by_cases hk : k = detail.promptId
      · subst hk; rw [mapGet_mapSet_self, hp]; rfl
      · rw [mapGet_mapSet_ne _ _ _ _ hk]

/-- C4 witness: the contract evaluated on a concrete one-slot map and a
concrete whole-record edit. -/
theorem handlePromptChanged_replacement_witness :
    mapGet [("prompt-0", samplePrompt)] samplePromptEdit.promptId = some samplePrompt ∧
    mapGet (handlePromptChanged [("prompt-0", samplePrompt)] samplePromptEdit)
        samplePromptEdit.promptId = some samplePromptEdit ∧
    (∀ k, (mapGet (handlePromptChanged [("prompt-0", samplePrompt)] samplePromptEdit) k).isSome =
      (mapGet [("prompt-0", samplePrompt)] k).isSome) := by
  have h : mapGet [("prompt-0", samplePrompt)] samplePromptEdit.promptId = some samplePrompt := by
    simp [mapGet, samplePrompt, samplePromptEdit, List.find?_cons]
  have hmain := handlePromptChanged_replacement [("prompt-0", samplePrompt)] samplePromptEdit
  exact ⟨h, (hmain.2.1 samplePrompt h).1, hmain.2.2⟩

theorem ccWeight_nonneg_le_two (v : ℕ) (hv : v ≤ 127) :
    0 ≤ (v : ℚ) / 127 * 2 ∧ (v : ℚ) / 127 * 2 ≤ 2 := by
  constructor
  · positivity
  · have h : (v : ℚ) ≤ 127 := by exact_mod_cast hv
    have h127 : (0 : ℚ) < 127 := by norm_num
    have : (v : ℚ) / 127 ≤ 1 := (div_le_one h127).mpr h
    nlinarith

/-- C5: with learn mode off, an incoming control-change whose controller
matches the slot's bound cc sets the weight to exactly `value/127 * 2`;
for `value ∈ [0,127]` this lies in `[0,2]`, with 0 mapped to 0 and 127
mapped to 2. -/
theorem onCcMessage_weight (s : PromptControllerState) (msg : ControlChange)
    (hlearn : s.learnMode = false) (hcc : msg.cc = s.cc) (hv : msg.value ≤ 127) :
    (onCcMessage s msg).weight = (msg.value : ℚ) / 127 * 2 ∧
    0 ≤ (onCcMessage s msg).weight ∧
    (onCcMessage s msg).weight ≤ 2 ∧
    (msg.value = 0 → (onCcMessage s msg).weight = 0) ∧
    (msg.value = 127 → (onCcMessage s msg).weight = 2) := by
  have hw : (onCcMessage s msg).weight = (msg.value : ℚ) / 127 * 2 := by
    simp [onCcMessage, hlearn, hcc]
  have hb := ccWeight_nonneg_le_two msg.value hv
  refine ⟨hw, hw ▸ hb.1, hw ▸ hb.2, fun h0 => ?_, fun h127 => ?_⟩
  · rw [hw, h0]; norm_num
  · rw [hw, h127]; norm_num

/-- C5 witness: the contract evaluated for the sample slot receiving
`cc = 5, value = 127`. -/
theorem onCcMessage_weight_witness :
    samplePc.learnMode = false ∧ (5 : ℕ) = samplePc.cc ∧ (127 : ℕ) ≤ 127 ∧
    (onCcMessage samplePc ⟨0, 5, 127⟩).weight = ((127 : ℕ) : ℚ) / 127 * 2 ∧
    (onCcMessage samplePc ⟨0, 5, 127⟩).weight = 2 := by
  have h := onCcMessage_weight samplePc ⟨0, 5, 127⟩ rfl rfl (by norm_num)
  exact ⟨rfl, rfl, by norm_num, h.1, h.2.2.2.2 rfl⟩

/-- C7: a `filteredPrompt` notice is forwarded unchanged to the UI (the
toast shows exactly the notice's reason, the notice's text is recorded as
filtered) as a non-fatal event, and the WeightedPromptSet is untouched:
the prompt map, tempo and PlaybackState are all unchanged. -/
theorem onFilteredPrompt_frame (app : AppState) (fp : FilteredPrompt) :
    (onFilteredPrompt app fp).pdj.prompts = app.pdj.prompts ∧
    (onFilteredPrompt app fp).pdj.tempoBpm = app.pdj.tempoBpm ∧
    (onFilteredPrompt app fp).pdj.playbackState = app.pdj.playbackState ∧
    (onFilteredPrompt app fp).toasts = app.toasts ++ [fp.filteredReason] ∧
    fp.text ∈ (onFilteredPrompt app fp).pdj.filteredPrompts := by
  refine ⟨rfl, rfl, rfl, rfl, ?_⟩
  show fp.text ∈ addFilteredPrompt app.pdj.filteredPrompts fp.text
  by_cases h : fp.text ∈ app.pdj.filteredPrompts <;>
    simp [addFilteredPrompt, h]

/-- C8 counterexample: the handlers do not clamp. Delivering 250 to
`handleTempoInput` stores tempo 250, outside [60,200]; delivering 1.5 to
`handleDensityChange` stores density 3/2, outside [0,1]. -/
theorem boundary_values_not_clamped :
    (handleTempoInput sampleDj 250).1.tempoBpm = 250 ∧
    ¬((handleTempoInput sampleDj 250).1.tempoBpm ≤ 200) ∧
    (handleDensityChange samplePc (3/2)).density = 3/2 ∧
    ¬((handleDensityChange samplePc (3/2)).density ≤ 1) := by
  refine ⟨rfl, by decide, rfl, ?_⟩
  show ¬((3 : ℚ)/2 ≤ 1)
  norm_num

/-- C8 amended: boundary values are accepted and stored unchanged, never
rejected and never clamped; they land in range exactly when the
delivering control's own range is respected (tempo slider min 60 max 200,
density slider min 0 max 1, MIDI values 0-127). -/
theorem boundary_passthrough (s : PromptDjMidiState) (t : PromptControllerState)
    (pc : PromptControllerState) (msg : ControlChange) (v : ℤ) (d : ℚ)
    (hv₁ : 60 ≤ v) (hv₂ : v ≤ 200) (hd₁ : 0 ≤ d) (hd₂ : d ≤ 1)
    (hlearn : pc.learnMode = false) (hcc : msg.cc = pc.cc) (hval : msg.value ≤ 127) :
    (handleTempoInput s v).1.tempoBpm = v ∧ (handleTempoInput s v).2 = v ∧
    60 ≤ (handleTempoInput s v).1.tempoBpm ∧ (handleTempoInput s v).1.tempoBpm ≤ 200 ∧
    (handleDensityChange t d).density = d ∧
    0 ≤ (handleDensityChange t d).density ∧ (handleDensityChange t d).density ≤ 1 ∧
    0 ≤ (onCcMessage pc msg).weight ∧ (onCcMessage pc msg).weight ≤ 2 := by
  have hw : (onCcMessage pc msg).weight = (msg.value : ℚ) / 127 * 2 := by
    simp [onCcMessage, hlearn, hcc]
  have hb := ccWeight_nonneg_le_two msg.value hval
  exact ⟨rfl, rfl, hv₁, hv₂, rfl, hd₁, hd₂, hw ▸ hb.1, hw ▸ hb.2⟩

/-- C8 amended witness: the pass-through contract evaluated at tempo 140,
density 1/2 and MIDI value 64 on cc 5. -/
theorem boundary_passthrough_witness :
    (60 ≤ (140 : ℤ) ∧ (140 : ℤ) ≤ 200 ∧ (0 : ℚ) ≤ 1/2 ∧ (1/2 : ℚ) ≤ 1 ∧
      samplePc.learnMode = false ∧ (5 : ℕ) = samplePc.cc ∧ (64 : ℕ) ≤ 127) ∧
    (handleTempoInput sampleDj 140).1.tempoBpm = 140 ∧
    (handleDensityChange samplePc (1/2)).density = 1/2 ∧
    0 ≤ (onCcMessage samplePc ⟨0, 5, 64⟩).weight ∧
    (onCcMessage samplePc ⟨0, 5, 64⟩).weight ≤ 2 := by
  have h := boundary_passthrough sampleDj samplePc samplePc ⟨0, 5, 64⟩ 140 (1/2)
    (by norm_num) (by norm_num) (by norm_num) (by norm_num) rfl rfl (by norm_num)
  exact ⟨⟨by norm_num, by norm_num, by norm_num, by norm_num, rfl, rfl, by norm_num⟩,
    h.1, h.2.2.2.2.1, h.2.2.2.2.2.2.2.1, h.2.2.2.2.2.2.2.2⟩

/-- C9 counterexample: on the transition `stopped → loading` (not a
transition out of `playing`) the listener still invokes `stop()`: one
stop call against zero transitions out of `playing`, so `stop()` is not
invoked exactly on transitions out of `playing`. -/
theorem analyser_stop_without_transition :
    stopCalls [PlaybackState.loading] = 1 ∧
    transitionsOutOfPlaying PlaybackState.stopped [PlaybackState.loading] = 0 ∧
    stopCalls [PlaybackState.loading] ≠
      transitionsOutOfPlaying PlaybackState.stopped [PlaybackState.loading] := by
  refine ⟨?_, ?_, ?_⟩ <;> decide

theorem runAnalyser_append (running : Bool) (l₁ l₂ : List PlaybackState) :
    runAnalyser running (l₁ ++ l₂) = runAnalyser (runAnalyser running l₁) l₂ := by
  induction l₁ generalizing running with
  | nil => rfl
  | cons e es ih => simp [runAnalyser, ih]

/-- C9 amended: `start()`/`stop()` are idempotent; the listener invokes
`start()` on every `playback-state-changed` event whose new state is
`playing` and `stop()` on every other event (not only on transitions out
of `playing`), so every event invokes exactly one of the two and after
every event the analyzer is running if and only if PlaybackState is
`playing`. -/
theorem analyser_running_iff_playing :
    (∀ b, analyserStart (analyserStart b) = analyserStart b) ∧
    (∀ b, analyserStop (analyserStop b) = analyserStop b) ∧
    (∀ running ps, onPlaybackStateChanged running ps =
      decide (ps = PlaybackState.playing)) ∧
    (∀ running events e, runAnalyser running (events ++ [e]) =
      decide (e = PlaybackState.playing)) ∧
    (∀ events, startCalls events + stopCalls events = events.length) := by
  refine ⟨fun _ => rfl, fun _ => rfl, fun running ps => ?_, fun running events e => ?_, fun events => ?_⟩
  · by_cases h : ps = PlaybackState.playing <;>
      simp [onPlaybackStateChanged, analyserStart, analyserStop, h]
  · rw [runAnalyser_append]
    by_cases h : e = PlaybackState.playing <;>
      simp [runAnalyser, onPlaybackStateChanged, analyserStart, analyserStop, h]
  · induction events with
    | nil => rfl
    | cons x xs ih =>
      by_cases h : x = PlaybackState.playing <;>
        simp [startCalls, stopCalls, List.countP_cons, h] at ih ⊢ <;> omega

theorem schedStep_playback (s : SchedState) (e : SchedEvent) :
    (schedStep s e).1.playback = s.playback := by
  cases e with
  | tick =>
    by_cases h1 : s.playback = PlaybackState.playing
    · by_cases h2 : s.buffer = 0 <;> simp [schedStep, h1, h2]
    · simp [schedStep, h1]
  | chunk => rfl

theorem schedFinal_playback (events : List SchedEvent) (s : SchedState) :
    (schedFinal s events).playback = s.playback := by
  induction events generalizing s with
  | nil => rfl
  | cons e es ih => rw [schedFinal, ih, schedStep_playback]

theorem schedStep_diag_count (s : SchedState) (e : SchedEvent) :
    (if (schedStep s e).2.2 then (1 : ℕ) else 0) =
      (if (schedStep s e).1.starving ∧ ¬s.starving then (1 : ℕ) else 0) := by
  cases e with
  | tick =>
    by_cases h1 : s.playback = PlaybackState.playing
    · by_cases h2 : s.buffer = 0
      · cases hst : s.starving <;> simp [schedStep, h1, h2, hst]
      · cases hst : s.starving <;> simp [schedStep, h1, h2, hst]
    · cases hst : s.starving <;> simp [schedStep, h1, hst]
  | chunk => cases hst : s.starving <;> simp [schedStep, hst]

theorem schedDiags_eq_episodes (events : List SchedEvent) (s : SchedState) :
    schedDiags s events = schedEpisodes s events := by
  induction events generalizing s with
  | nil => rfl
  | cons e es ih => rw [schedDiags, schedEpisodes, schedStep_diag_count, ih]

/-- C2: starting from a `playing` scheduler, the published PlaybackState
stays `playing` after every prefix of any tick/chunk trace (an underrun
never stops playback); exactly one `UnderrunDiagnostic` is emitted per
starvation episode; a starved tick outputs silence while holding
`playing`; a tick with buffered chunks outputs audio and ends the
episode, resuming normal playback. -/
theorem underrun_policy (s : SchedState) (events : List SchedEvent)
    (hs : s.playback = PlaybackState.playing) : UnderrunSpec s events := by
  refine ⟨fun n => ?_, schedDiags_eq_episodes events s,
    fun t ht hb => ⟨?_, ?_⟩, fun t ht hb => ?_⟩
  · rw [schedFinal_playback]; exact hs
  · rw [schedStep_playback]; exact ht
  · simp [schedStep, ht, hb]
  · have hb' : ¬(t.buffer = 0) := by omega
    constructor <;> simp [schedStep, ht, hb']

/-- C2 witness: the underrun contract on a concrete starved trace — a
tick on an empty buffer, a chunk arrival, and a consuming tick. -/
theorem underrun_policy_witness :
    (SchedState.mk PlaybackState.playing 0 false).playback = PlaybackState.playing ∧
    UnderrunSpec ⟨PlaybackState.playing, 0, false⟩
      [SchedEvent.tick, SchedEvent.chunk, SchedEvent.tick] :=
  ⟨rfl, underrun_policy _ _ rfl⟩

theorem onStreamError_stopped (maxAttempts : ℕ) (s : OrchState)
    (h : s.playback = PlaybackState.stopped) : onStreamError maxAttempts s = s := by
  simp [onStreamError, h]

theorem runErrors_stopped (maxAttempts : ℕ) (s : OrchState)
    (h : s.playback = PlaybackState.stopped) (n : ℕ) :
    runErrors maxAttempts s n = s := by
  induction n with
  | zero => rfl
  | succ n ih => rw [runErrors, onStreamError_stopped maxAttempts s h]; exact ih

theorem runErrors_exhaust (maxAttempts : ℕ) :
    ∀ (n : ℕ) (s : OrchState), s.playback ≠ PlaybackState.stopped →
      s.fatalErrors = 0 → s.attempt ≤ maxAttempts + 1 →
      maxAttempts + 2 ≤ n + s.attempt →
      runErrors maxAttempts s n = ⟨PlaybackState.stopped, maxAttempts + 1, 1⟩ := by
  intro n
  induction n with
  | zero =>
    intro s _ _ h3 h4
    omega
  | succ n ih =>
    intro s h1 h2 h3 h4
    obtain ⟨p, a, f⟩ := s
    simp only at h1 h2 h3 h4
    subst h2
    by_cases ha : a ≤ maxAttempts
    · have hstep : onStreamError maxAttempts ⟨p, a, 0⟩ =
          ⟨PlaybackState.loading, a + 1, 0⟩ := by
        simp [onStreamError, h1, shouldRetry, ha]
      rw [runErrors, hstep]
      exact ih _ (by simp) rfl (by show a + 1 ≤ maxAttempts + 1; omega)
        (by show maxAttempts + 2 ≤ n + (a + 1); omega)
    · have ha' : a = maxAttempts + 1 := by omega
      have hstep : onStreamError maxAttempts ⟨p, a, 0⟩ =
          ⟨PlaybackState.stopped, a, 1⟩ := by
        simp [onStreamError, h1, shouldRetry, ha]
      rw [runErrors, hstep, ha']
      exact runErrors_stopped maxAttempts _ rfl n

theorem runErrors_fatal_zero (maxAttempts : ℕ) :
    ∀ (n : ℕ) (s : OrchState), s.fatalErrors = 0 →
      s.playback ≠ PlaybackState.stopped → n + s.attempt ≤ maxAttempts + 1 →
      (runErrors maxAttempts s n).fatalErrors = 0 := by
  intro n
  induction n with
  | zero => intro s h2 _ _; exact h2
  | succ n ih =>
    intro s h2 h1 h3
    obtain ⟨p, a, f⟩ := s
    simp only at h1 h2 h3
    subst h2
    have ha : a ≤ maxAttempts := by omega
    have hstep : onStreamError maxAttempts ⟨p, a, 0⟩ =
        ⟨PlaybackState.loading, a + 1, 0⟩ := by
      simp [onStreamError, h1, shouldRetry, ha]
    rw [runErrors, hstep]
    exact ih _ rfl (by simp) (by show n + (a + 1) ≤ maxAttempts + 1; omega)

/-- C3: the reconnect delay is `base * 2 ^ attempt` capped at `cap`, plus
jitter drawn from `[0, delay / 4]`; ignoring jitter the delay is
non-decreasing in the attempt count up to the cap; `shouldRetry` becomes
false exactly when the attempt count exceeds the configured maximum, at
which point the orchestrator is `stopped` and has emitted exactly one
fatal error — and none before that point. -/
theorem reconnect_policy (base cap maxAttempts : ℕ) :
    ReconnectSpec base cap maxAttempts := by
  refine ⟨fun a => ⟨min_le_right _ _, fun h => min_eq_left h, fun h => min_eq_right h⟩,
    fun a j hj => ⟨Nat.le_add_right _ _, Nat.add_le_add_left hj _⟩,
    fun a b hab => ?_, fun a => ?_, fun n hn => ?_, fun n hn => ?_⟩
  · exact min_le_min
      (Nat.mul_le_mul le_rfl (Nat.pow_le_pow_right (by norm_num) hab)) le_rfl
  · simp [shouldRetry, Nat.not_le]
  · exact runErrors_exhaust maxAttempts n _ (by simp) rfl
      (by show 0 ≤ maxAttempts + 1; omega) (by show maxAttempts + 2 ≤ n + 0; omega)
  · exact runErrors_fatal_zero maxAttempts n _ rfl (by simp)
      (by show n + 0 ≤ maxAttempts + 1; omega)

/-- C3 witness: the policy contract at base 30, cap 480, maximum 5
attempts; seven consecutive errors stop playback with one fatal error,
and two concrete delays sit on the curve and at the cap. -/
theorem reconnect_policy_witness :
    ReconnectSpec 30 480 5 ∧
    runErrors 5 ⟨PlaybackState.playing, 0, 0⟩ 7 = ⟨PlaybackState.stopped, 6, 1⟩ ∧
    reconnectDelay 30 480 3 = 240 ∧ reconnectDelay 30 480 5 = 480 := by
  have h := reconnect_policy 30 480 5
  exact ⟨h, h.2.2.2.2.1 7 (by norm_num), by decide, by decide⟩

theorem countP_buildPromptUpdate (m : List (String × Prompt)) (k : String) :
    (buildPromptUpdate m).countP (fun e => decide (e.1 = k)) =
      (m.map Prod.fst).countP (fun x => decide (x = k)) := by
  rw [buildPromptUpdate, List.countP_map, List.countP_map]
  rfl

theorem countP_eq_count_key (l : List String) (k : String) :
    l.countP (fun x => decide (x = k)) = l.count k := by
  rw [List.count_eq_countP]
  apply List.countP_congr
  intro x _
  simp [beq_iff_eq]

theorem mapGet_mem (m : List (String × Prompt)) (k : String) (p : Prompt)
    (h : mapGet m k = some p) : (k, p) ∈ m := by
  induction m with
  | nil => simp [mapGet] at h
  | cons e rest ih =>
    rw [mapGet_cons] at h
    by_cases he : e.1 = k
    · rw [if_pos he] at h
      have hp : e.2 = p := by injection h
      have : (k, p) = e := by rw [← he, ← hp]
      rw [this]
      exact List.mem_cons_self _ _
    · rw [if_neg he] at h
      exact List.mem_cons_of_mem _ (ih h)

/-- C6: a logical prompt update carries exactly one wire entry per key of
the WeightedPromptSet (keys being unique), one wire entry per map entry,
and every stored prompt — zero-weight prompts included — appears with its
weight; this holds for the full current map, which is what `main` always
forwards. -/
theorem prompt_update_complete (m : List (String × Prompt))
    (hnd : (m.map Prod.fst).Nodup) : UpdateSpec m := by
  refine ⟨fun k hk => ?_, fun k p hp => ?_, by simp [buildPromptUpdate]⟩
  · rw [countP_buildPromptUpdate, countP_eq_count_key]
    exact List.count_eq_one_of_mem hnd hk
  · exact List.mem_map.mpr ⟨(k, p), mapGet_mem m k p hp, rfl⟩

/-- C6 witness: the update contract on a concrete two-slot map whose
first entry has weight 0; the zero-weight entry is transmitted. -/
theorem prompt_update_complete_witness :
    (([("prompt-0", samplePrompt), ("prompt-1", samplePromptEdit)].map
        Prod.fst).Nodup) ∧
    UpdateSpec [("prompt-0", samplePrompt), ("prompt-1", samplePromptEdit)] ∧
    ("prompt-0", (0 : ℚ)) ∈
      buildPromptUpdate [("prompt-0", samplePrompt), ("prompt-1", samplePromptEdit)] := by
  have hnd : (([("prompt-0", samplePrompt), ("prompt-1", samplePromptEdit)].map
      Prod.fst).Nodup) := by
    simp [samplePrompt, samplePromptEdit]
  have h := prompt_update_complete _ hnd
  refine ⟨hnd, h, ?_⟩
  have hget : mapGet [("prompt-0", samplePrompt), ("prompt-1", samplePromptEdit)]
      "prompt-0" = some samplePrompt := rfl
  exact h.2.1 "prompt-0" samplePrompt hget

theorem GENRE_LIBRARY_length : GENRE_LIBRARY.length = 38 := rfl

theorem buildInitialPrompts_getD (startOn : List ℕ) (i : ℕ) (h : i < 16) :
    (buildInitialPrompts startOn).getD i default =
      ("prompt-" ++ toString i,
        { promptId := "prompt-" ++ toString i
          text := (GENRE_LIBRARY.getD i default).text
          weight := if i ∈ startOn then 1 else 0
          cc := i
          color := (GENRE_LIBRARY.getD i default).color
          density := 1/2
          instruments := (GENRE_LIBRARY.getD i default).instruments
          selectedInstrument := (GENRE_LIBRARY.getD i default).instruments.head? }) := by
  have hmod : i % GENRE_LIBRARY.length = i := by
    rw [GENRE_LIBRARY_length]
    omega
  rw [buildInitialPrompts, List.getD_eq_getElem?_getD, List.getElem?_map,
    List.getElem?_range h, Option.map_some', Option.getD_some, hmod]

theorem buildInitialPrompts_keys (startOn : List ℕ) :
    (buildInitialPrompts startOn).map Prod.fst =
      (List.range 16).map (fun i => "prompt-" ++ toString i) := by
  rw [buildInitialPrompts, List.map_map]
  rfl

theorem buildInitialPrompts_countP (startOn : List ℕ) :
    (buildInitialPrompts startOn).countP (fun e => decide (e.2.weight = 1)) =
      (List.range 16).countP (fun i => decide (i ∈ startOn)) := by
  rw [buildInitialPrompts, List.countP_map]
  apply List.countP_congr
  intro i _
  by_cases h : i ∈ startOn <;> simp [Function.comp, h]

theorem countP_mem_le (l s : List ℕ) (hl : l.Nodup) :
    l.countP (fun i => decide (i ∈ s)) ≤ s.length := by
  rw [List.countP_eq_length_filter]
  have h1 : (l.filter (fun i => decide (i ∈ s))).Nodup := hl.filter _
  calc (l.filter (fun i => decide (i ∈ s))).length
      = (l.filter (fun i => decide (i ∈ s))).toFinset.card := by
        rw [List.toFinset_card_of_nodup h1]
    _ ≤ s.toFinset.card := by
        apply Finset.card_le_card
        intro x hx
        rw [List.mem_toFinset] at hx ⊢
        simpa using List.of_mem_filter hx
    _ ≤ s.length := s.toFinset_card_le

/-- C10: for any valid random draw (three distinct library indices) the
initial map has 16 entries keyed `prompt-0` … `prompt-15` in slot order;
entry `i` carries `cc = i`, density one half, the text, color and
instruments of library genre `i`, and weight 1 exactly when that genre
was drawn, else 0 — so each weight is 0 or 1, at most 3 entries weigh 1,
and since the draw ranges over all 38 genres while only 16 occupy slots,
some valid draws produce no weight-1 entry at all. -/
theorem buildInitialPrompts_contract (startOn : List ℕ) (hnd : startOn.Nodup)
    (hlen : startOn.length = 3) (hlt : ∀ j ∈ startOn, j < 38) :
    InitialPromptsSpec startOn := by
  refine ⟨?_, buildInitialPrompts_keys startOn, fun i hi => ?_, fun i hi => ?_,
    ?_, GENRE_LIBRARY_length, ?_⟩
  · rw [buildInitialPrompts]
    simp
  · rw [buildInitialPrompts_getD startOn i hi]
  · rw [buildInitialPrompts_getD startOn i hi]
    by_cases h : i ∈ startOn <;> simp [h]
  · rw [buildInitialPrompts_countP]
    calc (List.range 16).countP (fun i => decide (i ∈ startOn))
        ≤ startOn.length := countP_mem_le _ _ (List.nodup_range 16)
      _ = 3 := hlen
  · refine ⟨[16, 17, 18], by decide, rfl, by decide, ?_⟩
    rw [buildInitialPrompts_countP]
    decide

/-- C10 witness: the contract evaluated at the concrete draw
`[0, 20, 5]` — two drawn genres land on slots, one does not. -/
theorem buildInitialPrompts_contract_witness :
    ([0, 20, 5] : List ℕ).Nodup ∧ ([0, 20, 5] : List ℕ).length = 3 ∧
    (∀ j ∈ ([0, 20, 5] : List ℕ), j < 38) ∧ InitialPromptsSpec [0, 20, 5] :=
  ⟨by decide, rfl, by decide,
    buildInitialPrompts_contract [0, 20, 5] (by decide) rfl (by decide)⟩

theorem limiterStep_pos {V : Type} (I : ℕ) (s : Limiter V) (e : Option V)
    (h : s.cooldown ≠ 0) :
    limiterStep I s e =
      (⟨s.cooldown - 1, match e with | some v => some v | none => s.pending⟩, none) := by
  simp [limiterStep, h]

theorem limiterStep_zero_edit {V : Type} (I : ℕ) (s : Limiter V) (v : V)
    (h : s.cooldown = 0) : limiterStep I s (some v) = (⟨I - 1, none⟩, some v) := by
  simp [limiterStep, h]

theorem limiterStep_zero_pending {V : Type} (I : ℕ) (s : Limiter V) (v : V)
    (h : s.cooldown = 0) (hp : s.pending = some v) :
    limiterStep I s none = (⟨I - 1, none⟩, some v) := by
  simp [limiterStep, h, hp]

theorem limiterStep_zero_idle {V : Type} (I : ℕ) (s : Limiter V)
    (h : s.cooldown = 0) (hp : s.pending = none) :
    limiterStep I s none = (⟨0, none⟩, none) := by
  simp [limiterStep, h, hp]

theorem limiterStep_sent {V : Type} (I : ℕ) (s : Limiter V) (e : Option V)
    (h : (limiterStep I s e).2 ≠ none) : (limiterStep I s e).1 = ⟨I - 1, none⟩ := by
  by_cases hc : s.cooldown = 0
  · cases e with
    | some v => rw [limiterStep_zero_edit I s v hc]
    | none =>
      cases hp : s.pending with
      | some v => rw [limiterStep_zero_pending I s v hc hp]
      | none => rw [limiterStep_zero_idle I s hc hp] at h; simp at h
  · rw [limiterStep_pos I s e hc] at h; simp at h

theorem limiterStep_cooldown_lt {V : Type} (I : ℕ) (hI : 0 < I) (s : Limiter V)
    (e : Option V) (h : s.cooldown < I) : (limiterStep I s e).1.cooldown < I := by
  by_cases hc : s.cooldown = 0
  · cases e with
    | some v => rw [limiterStep_zero_edit I s v hc]; show I - 1 < I; omega
    | none =>
      cases hp : s.pending with
      | some v => rw [limiterStep_zero_pending I s v hc hp]; show I - 1 < I; omega
      | none => rw [limiterStep_zero_idle I s hc hp]; show 0 < I; omega
  · rw [limiterStep_pos I s e hc]; show s.cooldown - 1 < I; omega

theorem limiterRun_length {V : Type} (I : ℕ) :
    ∀ (es : List (Option V)) (s : Limiter V),
      (limiterRun I s es).length = es.length := by
  intro es
  induction es with
  | nil => intro s; rfl
  | cons e es ih => intro s; rw [limiterRun, List.length_cons, List.length_cons, ih]

theorem limiterRun_append {V : Type} (I : ℕ) :
    ∀ (l₁ l₂ : List (Option V)) (s : Limiter V),
      limiterRun I s (l₁ ++ l₂) =
        limiterRun I s l₁ ++ limiterRun I (limiterFinal I s l₁) l₂ := by
  intro l₁
  induction l₁ with
  | nil => intro l₂ s; rfl
  | cons e es ih =>
    intro l₂ s
    rw [List.cons_append, limiterRun, limiterRun, limiterFinal, List.cons_append, ih]

theorem limiterFinal_cooldown_lt {V : Type} (I : ℕ) (hI : 0 < I) :
    ∀ (es : List (Option V)) (s : Limiter V), s.cooldown < I →
      (limiterFinal I s es).cooldown < I := by
  intro es
  induction es with
  | nil => intro s h; exact h
  | cons e es ih =>
    intro s h
    rw [limiterFinal]
    exact ih _ (limiterStep_cooldown_lt I hI s e h)

theorem limiter_no_send_early {V : Type} (I : ℕ) :
    ∀ (es : List (Option V)) (s : Limiter V) (j : ℕ),
      (limiterRun I s es).getD j none ≠ none → s.cooldown ≤ j := by
  intro es
  induction es with
  | nil => intro s j h; simp [limiterRun] at h
  | cons e es ih =>
    intro s j h
    by_cases hc : s.cooldown = 0
    · omega
    · cases j with
      | zero =>
        rw [limiterRun, List.getD_cons_zero, limiterStep_pos I s e hc] at h
        simp at h
      | succ j =>
        rw [limiterRun, List.getD_cons_succ] at h
        have hj := ih (limiterStep I s e).1 j h
        rw [limiterStep_pos I s e hc] at hj
        have : s.cooldown - 1 ≤ j := hj
        omega

theorem limiter_gap {V : Type} (I : ℕ) :
    ∀ (es : List (Option V)) (s : Limiter V) (i j : ℕ), i < j →
      (limiterRun I s es).getD i none ≠ none →
      (limiterRun I s es).getD j none ≠ none → i + I ≤ j := by
  intro es
  induction es with
  | nil => intro s i j _ hi _; simp [limiterRun] at hi
  | cons e es ih =>
    intro s i j hij hi hj
    cases i with
    | zero =>
      obtain ⟨j', rfl⟩ : ∃ j', j = j' + 1 := ⟨j - 1, by omega⟩
      rw [limiterRun, List.getD_cons_zero] at hi
      rw [limiterRun, List.getD_cons_succ] at hj
      have hcool := limiter_no_send_early I es (limiterStep I s e).1 j' hj
      rw [limiterStep_sent I s e hi] at hcool
      have : I - 1 ≤ j' := hcool
      omega
    | succ i' =>
      obtain ⟨j', rfl⟩ : ∃ j', j = j' + 1 := ⟨j - 1, by omega⟩
      rw [limiterRun, List.getD_cons_succ] at hi hj
      have := ih (limiterStep I s e).1 i' j' (by omega) hi hj
      omega

theorem limiter_latest_wins {V : Type} (I : ℕ) :
    ∀ (es : List (Option V)) (s : Limiter V) (j : ℕ) (v : V),
      (limiterRun I s es).getD j none = some v →
      lastSome (es.take (j + 1)) = some v ∨
        (lastSome (es.take (j + 1)) = none ∧ s.pending = some v) := by
  intro es
  induction es with
  | nil => intro s j v h; simp [limiterRun] at h
  | cons e es ih =>
    intro s j v h
    cases j with
    | zero =>
      rw [limiterRun, List.getD_cons_zero] at h
      by_cases hc : s.cooldown = 0
      · cases e with
        | some w =>
          rw [limiterStep_zero_edit I s w hc] at h
          have hw : w = v := by injection h
          left
          simp [List.take_succ_cons, lastSome, hw]
        | none =>
          cases hp : s.pending with
          | some w =>
            rw [limiterStep_zero_pending I s w hc hp] at h
            have hw : w = v := by injection h
            right
            exact ⟨by simp [List.take_succ_cons, lastSome], by rw [hw]⟩
          | none =>
            rw [limiterStep_zero_idle I s hc hp] at h
            simp at h
      · rw [limiterStep_pos I s e hc] at h
        simp at h
    | succ j =>
      rw [limiterRun, List.getD_cons_succ] at h
      rcases ih (limiterStep I s e).1 j v h with hL | ⟨hN, hP⟩
      · left
        rw [List.take_succ_cons, lastSome, hL]
      · by_cases hc : s.cooldown = 0
        · have hnone : (limiterStep I s e).1.pending = none := by
            cases e with
            | some w => rw [limiterStep_zero_edit I s w hc]
            | none =>
              cases hp : s.pending with
              | some w => rw [limiterStep_zero_pending I s w hc hp]
              | none => rw [limiterStep_zero_idle I s hc hp]
          rw [hnone] at hP
          exact absurd hP (by simp)
        · rw [limiterStep_pos I s e hc] at hP
          cases e with
          | some w =>
            have hw : w = v := by injection hP
            left
            rw [List.take_succ_cons, lastSome, hN, hw]
          | none =>
            right
            refine ⟨?_, hP⟩
            rw [List.take_succ_cons, lastSome, hN]

theorem limiterStep_pos_none {V : Type} (I : ℕ) (s : Limiter V)
    (hc : s.cooldown ≠ 0) :
    limiterStep I s none = (⟨s.cooldown - 1, s.pending⟩, none) := by
  simp [limiterStep, hc]

theorem limiterStep_none_keeps_none {V : Type} (I : ℕ) (s : Limiter V)
    (hp : s.pending = none) :
    (limiterStep I s none).1.pending = none ∧ (limiterStep I s none).2 = none := by
  by_cases hc : s.cooldown = 0
  · rw [limiterStep_zero_idle I s hc hp]; exact ⟨rfl, rfl⟩
  · rw [limiterStep_pos_none I s hc]; exact ⟨hp, rfl⟩

theorem limiter_all_none {V : Type} (I : ℕ) :
    ∀ (es : List (Option V)) (s : Limiter V), s.pending = none →
      (∀ e ∈ es, e = none) →
      limiterRun I s es = List.replicate es.length none ∧
        (limiterFinal I s es).pending = none := by
  intro es
  induction es with
  | nil => intro s hp _; exact ⟨rfl, hp⟩
  | cons e es ih =>
    intro s hp hall
    have he : e = none := hall e (List.mem_cons_self e es)
    subst he
    obtain ⟨h1, h2⟩ := limiterStep_none_keeps_none I s hp
    have ihh := ih (limiterStep I s none).1 h1
      (fun x hx => hall x (List.mem_cons_of_mem _ hx))
    refine ⟨?_, ?_⟩
    · rw [limiterRun, h2, ihh.1, List.length_cons, List.replicate_succ]
    · rw [limiterFinal]; exact ihh.2

theorem limiter_all_edits_send {V : Type} (I : ℕ) :
    ∀ (es : List (Option V)) (s : Limiter V),
      (∀ e ∈ es, e ≠ none) →
      (∀ j, j < es.length → (limiterRun I s es).getD j none = none) →
      es.length ≤ s.cooldown := by
  intro es
  induction es with
  | nil => intro s _ _; simp
  | cons e es ih =>
    intro s hfast hnone
    by_cases hc : s.cooldown = 0
    · exfalso
      have h0 := hnone 0 (by simp)
      rw [limiterRun, List.getD_cons_zero] at h0
      have hne := hfast e (List.mem_cons_self e es)
      cases e with
      | none => exact hne rfl
      | some w =>
        rw [limiterStep_zero_edit I s w hc] at h0
        simp at h0
    · have htail : ∀ j, j < es.length →
          (limiterRun I (limiterStep I s e).1 es).getD j none = none := by
        intro j hj
        have := hnone (j + 1) (by rw [List.length_cons]; omega)
        rw [limiterRun, List.getD_cons_succ] at this
        exact this
      have hrec := ih (limiterStep I s e).1
        (fun x hx => hfast x (List.mem_cons_of_mem _ hx)) htail
      rw [limiterStep_pos I s e hc] at hrec
      have h2 : es.length ≤ s.cooldown - 1 := hrec
      rw [List.length_cons]
      omega

theorem lastSome_replicate_none {V : Type} (n : ℕ) :
    lastSome (List.replicate n (none : Option V)) = none := by
  induction n with
  | zero => rfl
  | succ n ih => rw [List.replicate_succ, lastSome, ih]

theorem lastSome_none_all {V : Type} :
    ∀ (es : List (Option V)), lastSome es = none → ∀ e ∈ es, e = none := by
  intro es
  induction es with
  | nil => intro _ e he; simp at he
  | cons x es ih =>
    intro h e he
    rw [lastSome] at h
    cases hx : lastSome es with
    | some v => rw [hx] at h; simp at h
    | none =>
      rw [hx] at h
      rcases List.mem_cons.mp he with rfl | hmem
      · exact h
      · exact ih hx e hmem

theorem lastSome_decomp {V : Type} :
    ∀ (es : List (Option V)) (v : V), lastSome es = some v →
      ∃ l₁ l₂, es = l₁ ++ some v :: l₂ ∧ ∀ e ∈ l₂, e = none := by
  intro es
  induction es with
  | nil => intro v h; simp [lastSome] at h
  | cons x es ih =>
    intro v h
    rw [lastSome] at h
    cases hx : lastSome es with
    | some w =>
      rw [hx] at h
      have hw : w = v := by injection h
      subst hw
      obtain ⟨l₁, l₂, heq, hall⟩ := ih w hx
      exact ⟨x :: l₁, l₂, by rw [heq]; rfl, hall⟩
    | none =>
      rw [hx] at h
      have hx2 : x = some v := h
      exact ⟨[], es, by rw [hx2]; rfl, lastSome_none_all es hx⟩

theorem lastSome_append {V : Type} (l₁ l₂ : List (Option V)) :
    lastSome (l₁ ++ l₂) =
      match lastSome l₂ with | some v => some v | none => lastSome l₁ := by
  induction l₁ with
  | nil =>
    rw [List.nil_append]
    cases h₂ : lastSome l₂ <;> simp [lastSome]
  | cons e es ih =>
    rw [List.cons_append, lastSome, ih]
    cases h₂ : lastSome l₂ <;> cases h₁ : lastSome es <;> simp [lastSome, h₁]

theorem limiter_flush {V : Type} (I : ℕ) :
    ∀ (es : List (Option V)) (s : Limiter V) (v : V), s.pending = some v →
      (∀ e ∈ es, e = none) → s.cooldown < es.length →
      lastSome (limiterRun I s es) = some v := by
  intro es
  induction es with
  | nil => intro s v _ _ h; simp at h
  | cons e es ih =>
    intro s v hp hall hlt
    have he : e = none := hall e (List.mem_cons_self e es)
    subst he
    rw [List.length_cons] at hlt
    by_cases hc : s.cooldown = 0
    · have hall' := (limiter_all_none I es ⟨I - 1, none⟩ rfl
        (fun x hx => hall x (List.mem_cons_of_mem _ hx))).1
      rw [limiterRun, limiterStep_zero_pending I s v hc hp]
      show lastSome (some v :: limiterRun I ⟨I - 1, none⟩ es) = some v
      rw [lastSome, hall', lastSome_replicate_none]
    · rw [limiterRun, limiterStep_pos_none I s hc]
      show lastSome (none :: limiterRun I ⟨s.cooldown - 1, s.pending⟩ es) = some v
      rw [lastSome]
      have hrec := ih ⟨s.cooldown - 1, s.pending⟩ v hp
        (fun x hx => hall x (List.mem_cons_of_mem _ hx))
        (by show s.cooldown - 1 < es.length; omega)
      rw [hrec]

theorem limiter_eventual {V : Type} (I : ℕ) (hI : 0 < I) (es : List (Option V)) :
    lastSome (limiterRun I limiterIdle (es ++ List.replicate I none)) = lastSome es := by
  cases hlast : lastSome es with
  | none =>
    have hall : ∀ e ∈ es ++ List.replicate I (none : Option V), e = none := by
      intro e he
      rcases List.mem_append.mp he with h | h
      · exact lastSome_none_all es hlast e h
      · exact List.eq_of_mem_replicate h
    rw [(limiter_all_none I _ limiterIdle rfl hall).1, lastSome_replicate_none]
  | some v =>
    obtain ⟨l₁, l₂, heq, hall₂⟩ := lastSome_decomp es v hlast
    have hall₂' : ∀ e ∈ l₂ ++ List.replicate I (none : Option V), e = none := by
      intro e he
      rcases List.mem_append.mp he with h | h
      · exact hall₂ e h
      · exact List.eq_of_mem_replicate h
    rw [heq, List.append_assoc, List.cons_append, limiterRun_append, lastSome_append]
    have hcool : (limiterFinal I limiterIdle l₁).cooldown < I :=
      limiterFinal_cooldown_lt I hI l₁ limiterIdle (by show 0 < I; exact hI)
    have key : lastSome (limiterRun I (limiterFinal I limiterIdle l₁)
        (some v :: (l₂ ++ List.replicate I none))) = some v := by
      by_cases hc : (limiterFinal I limiterIdle l₁).cooldown = 0
      · rw [limiterRun, limiterStep_zero_edit I _ v hc]
        show lastSome (some v :: limiterRun I ⟨I - 1, none⟩
          (l₂ ++ List.replicate I none)) = some v
        rw [lastSome, (limiter_all_none I _ ⟨I - 1, none⟩ rfl hall₂').1,
          lastSome_replicate_none]
      · have hstep : limiterStep I (limiterFinal I limiterIdle l₁) (some v) =
            (⟨(limiterFinal I limiterIdle l₁).cooldown - 1, some v⟩, none) := by
          simp [limiterStep, hc]
        rw [limiterRun, hstep]
        show lastSome (none :: limiterRun I
          ⟨(limiterFinal I limiterIdle l₁).cooldown - 1, some v⟩
          (l₂ ++ List.replicate I none)) = some v
        rw [lastSome]
        have hlen : (limiterFinal I limiterIdle l₁).cooldown - 1 <
            (l₂ ++ List.replicate I (none : Option V)).length := by
          rw [List.length_append, List.length_replicate]
          omega
        have hrec := limiter_flush I (l₂ ++ List.replicate I none)
          ⟨(limiterFinal I limiterIdle l₁).cooldown - 1, some v⟩ v rfl hall₂'
          (by exact hlen)
        rw [hrec]
    rw [key]

theorem getD_append_lt {α : Type} (d : α) :
    ∀ (l l' : List α) (n : ℕ), n < l.length →
      (l ++ l').getD n d = l.getD n d := by
  intro l
  induction l with
  | nil => intro l' n h; simp at h
  | cons x xs ih =>
    intro l' n h
    cases n with
    | zero => rfl
    | succ n =>
      rw [List.cons_append, List.getD_cons_succ, List.getD_cons_succ]
      exact ih l' n (by rw [List.length_cons] at h; omega)

theorem getD_append_ge {α : Type} (d : α) :
    ∀ (l l' : List α) (n : ℕ), l.length ≤ n →
      (l ++ l').getD n d = l'.getD (n - l.length) d := by
  intro l
  induction l with
  | nil => intro l' n _; rfl
  | cons x xs ih =>
    intro l' n h
    cases n with
    | zero => rw [List.length_cons] at h; omega
    | succ n =>
      rw [List.cons_append, List.getD_cons_succ,
        ih l' n (by rw [List.length_cons] at h; omega), List.length_cons]
      have hidx : n + 1 - (xs.length + 1) = n - xs.length := by omega
      rw [hidx]

theorem limiter_window_ex {V : Type} (I : ℕ) (es : List (Option V))
    (s : Limiter V) (hcool : s.cooldown < I) (hfast : ∀ e ∈ es, e ≠ none)
    (hlen : I ≤ es.length) :
    ∃ j, j < I ∧ (limiterRun I s es).getD j none ≠ none := by
  by_contra hcon
  push_neg at hcon
  have hnone : ∀ j, j < (es.take I).length →
      (limiterRun I s (es.take I)).getD j none = none := by
    intro j hj
    have hjI : j < I := by rw [List.length_take] at hj; omega
    have hj' := hcon j hjI
    have hes : es = es.take I ++ es.drop I := (List.take_append_drop I es).symm
    rw [hes, limiterRun_append,
      getD_append_lt none _ _ j (by rw [limiterRun_length, List.length_take]; omega)] at hj'
    exact hj'
  have hforce := limiter_all_edits_send I (es.take I) s
    (fun e he => hfast e (List.take_subset I es he)) hnone
  rw [List.length_take] at hforce
  omega

theorem limiter_window {V : Type} (I : ℕ) (hI : 0 < I) (es : List (Option V))
    (hfast : ∀ e ∈ es, e ≠ none) (k : ℕ) (hk : (k + 1) * I ≤ es.length) :
    ∃! j, k * I ≤ j ∧ j < (k + 1) * I ∧
      ((limiterRun I limiterIdle es).getD j none).isSome := by
  have hkI : (k + 1) * I = k * I + I := by ring
  have hcool : (limiterFinal I limiterIdle (es.take (k * I))).cooldown < I :=
    limiterFinal_cooldown_lt I hI _ limiterIdle (by show 0 < I; exact hI)
  obtain ⟨j₀, hj₀I, hj₀⟩ := limiter_window_ex I (es.drop (k * I))
    (limiterFinal I limiterIdle (es.take (k * I))) hcool
    (fun e he => hfast e (List.drop_subset _ es he))
    (by rw [List.length_drop]; omega)
  have hglobal : (limiterRun I limiterIdle es).getD (k * I + j₀) none ≠ none := by
    have hes : es = es.take (k * I) ++ es.drop (k * I) :=
      (List.take_append_drop (k * I) es).symm
    rw [hes, limiterRun_append,
      getD_append_ge none _ _ (k * I + j₀)
        (by rw [limiterRun_length, List.length_take]; omega)]
    rw [limiterRun_length, List.length_take]
    have hmin : min (k * I) es.length = k * I := by omega
    rw [hmin]
    have hidx : k * I + j₀ - k * I = j₀ := by omega
    rw [hidx]
    exact hj₀
  refine ⟨k * I + j₀, ⟨by omega, by omega, Option.ne_none_iff_isSome.mp hglobal⟩, ?_⟩
  intro y hy
  obtain ⟨hy1, hy2, hy3⟩ := hy
  have hy3' : (limiterRun I limiterIdle es).getD y none ≠ none :=
    Option.ne_none_iff_isSome.mpr hy3
  rcases lt_trichotomy y (k * I + j₀) with hlt | hEq | hgt
  · have := limiter_gap I es limiterIdle y (k * I + j₀) hlt hy3' hglobal
    omega
  · exact hEq
  · have := limiter_gap I es limiterIdle (k * I + j₀) y hgt hglobal hy3'
    omega

/-- C1: for any edit trace, every value the rate limiter forwards to the
StreamSession equals the last value set up to that step (so no earlier
value is ever sent after a later one), any two forwards are at least one
rate-limit interval apart, a trace of edits issued every step (faster
than the interval) yields exactly one forward per interval window, and
once edits stop the last value set is, within one further window, the
last value forwarded. -/
theorem rate_limiter_contract (V : Type) (interval : ℕ) (hI : 0 < interval)
    (es : List (Option V)) : RateLimiterSpec V interval es := by
  refine ⟨fun j v h => ?_, fun i j hij hi hj => ?_,
    fun hfast k hk => limiter_window interval hI es hfast k hk,
    limiter_eventual interval hI es⟩
  · rcases limiter_latest_wins interval es limiterIdle j v h with hL | ⟨_, hP⟩
    · exact hL
    · exact absurd hP (by simp [limiterIdle])
  · exact limiter_gap interval es limiterIdle i j hij
      (Option.ne_none_iff_isSome.mpr hi) (Option.ne_none_iff_isSome.mpr hj)

/-- C1 witness: the contract at interval 2 on four back-to-back edits,
together with the concrete forwarded trace — edits 2 and 4 are
superseded in place and the final edit 4 is flushed after the window. -/
theorem rate_limiter_contract_witness :
    0 < 2 ∧ RateLimiterSpec ℕ 2 [some 1, some 2, some 3, some 4] ∧
    limiterRun 2 limiterIdle [some 1, some 2, some 3, some 4] =
      [some 1, none, some 3, none] ∧
    lastSome (limiterRun 2 limiterIdle
      ([some 1, some 2, some 3, some 4] ++ List.replicate 2 none)) = some 4 :=
  ⟨by decide, rate_limiter_contract ℕ 2 (by decide) _, by decide, by decide⟩

end MidiMixer
